import Mathlib

/-!
Verification of the CHIP-8 emulator core (`src/main.rs`) against its
natural-language specification.

The machine state and every opcode handler are translated directly from the
Rust source.  Machine integers are modelled as `Nat` with explicit `% 2^w`
at the points where the Rust code wraps (`wrapping_add`, `wrapping_sub`,
u8/u16 arithmetic).  Array indexing in Rust aborts the process when the index
is out of bounds; fallible operations are therefore modelled in
`Except EmuErr`, with an error constructor standing for each abort site.
-/

namespace Chip8Emu

def PIXEL_WIDTH : Nat := 64
def PIXEL_HEIGHT : Nat := 32
def STACK_SIZE : Nat := 16

/-- The 80-byte hexadecimal glyph font table (`CHIP8_FONTSET` in the source). -/
def CHIP8_FONTSET : List Nat :=
[ 0xF0, 0x90, 0x90, 0x90, 0xF0,
  0x20, 0x60, 0x20, 0x20, 0x70,
  0xF0, 0x10, 0xF0, 0x80, 0xF0,
  0xF0, 0x10, 0xF0, 0x10, 0xF0,
  0x90, 0x90, 0xF0, 0x10, 0x10,
  0xF0, 0x80, 0xF0, 0x10, 0xF0,
  0xF0, 0x80, 0xF0, 0x90, 0xF0,
  0xF0, 0x10, 0x20, 0x40, 0x40,
  0xF0, 0x90, 0xF0, 0x90, 0xF0,
  0xF0, 0x90, 0xF0, 0x10, 0xF0,
  0xF0, 0x90, 0xF0, 0x90, 0x90,
  0xE0, 0x90, 0xE0, 0x90, 0xE0,
  0xF0, 0x80, 0x80, 0x80, 0xF0,
  0xE0, 0x90, 0x90, 0x90, 0xE0,
  0xF0, 0x80, 0xF0, 0x80, 0xF0,
  0xF0, 0x80, 0xF0, 0x80, 0x80 ]

/-- The `Chip8` struct of the source.  Fixed-size Rust arrays are modelled as
total functions from the index to the stored value; all accesses performed by
the emulator go through bounds-checked wrappers mirroring Rust indexing. -/
structure Chip8 where
  memory : Nat → Nat
  registers : Nat → Nat
  pc : Nat
  old_pc : Nat
  index_register : Nat
  delay_timer : Nat
  sound_timer : Nat
  gfx : Nat → Nat
  draw_flag : Bool
  keys : Nat
  sp : Nat
  stack : Nat → Nat
  sound_iterator : Nat

/-- The abort conditions of the source: the two explicit `panic` messages
(invalid opcode, program counter out of range) and the implicit aborts from
Rust array indexing / integer underflow. -/
inductive EmuErr where
  | invalidOpcode (word : Nat)
  | pcOutOfRange
  | indexOutOfBounds
  | stackUnderflow
  | stackOverflow
deriving DecidableEq

/-- Point update of a function, modelling `arr[i] = v`. -/
def upd (f : Nat → Nat) (i v : Nat) : Nat → Nat :=
  fun j => if j = i then v else f j

theorem upd_same (f : Nat → Nat) (i v : Nat) : upd f i v i = v := by
  simp [upd]

theorem upd_other (f : Nat → Nat) (i v j : Nat) (h : j ≠ i) : upd f i v j = f j := by
  simp [upd, h]

theorem upd_upd_same (f : Nat → Nat) (i a b : Nat) :
    upd (upd f i a) i b = upd f i b := by
  funext j
  by_cases h : j = i <;> simp [upd, h]

/-- `memory[a]` read: Rust indexing into `[u8; 0x1000]` aborts for `a ≥ 0x1000`. -/
def readMem (m : Nat → Nat) (a : Nat) : Except EmuErr Nat :=
  if a < 0x1000 then .ok (m a) else .error .indexOutOfBounds

/-- `memory[a] = v` write, bounds-checked like the read. -/
def writeMem (m : Nat → Nat) (a v : Nat) : Except EmuErr (Nat → Nat) :=
  if a < 0x1000 then .ok (upd m a v) else .error .indexOutOfBounds

/-- `Chip8::new()`: font table in the first 80 bytes, `pc = 0x200`,
everything else zeroed. -/
def Chip8.new : Chip8 where
  memory := fun a => if a < 80 then CHIP8_FONTSET.getD a 0 else 0
  registers := fun _ => 0
  pc := 0x200
  old_pc := 0x200
  index_register := 0
  delay_timer := 0
  sound_timer := 0
  gfx := fun _ => 0
  draw_flag := false
  keys := 0
  sp := 0
  stack := fun _ => 0
  sound_iterator := 0

/-- `load_rom`: the source opens the ROM file and performs a single
`f.read(&mut self.memory[0x200 ..])`, which copies at most
`0x1000 - 0x200 = 0xE00` bytes of the file into memory starting at `0x200`
and ignores both the byte count and any length check; the function then
returns `Ok(())`.  Modelled on the file's byte contents. -/
def load_rom (s : Chip8) (bytes : List Nat) : Chip8 :=
  { s with memory := fun a =>
      if 0x200 ≤ a ∧ a < 0x200 + min bytes.length 0xE00 then
        bytes.getD (a - 0x200) 0
      else s.memory a }

/-- `fetch_opcode`: reads the two bytes at `pc` and `pc+1`, forms the
big-endian word, advances `pc` by 2 and only then checks `pc > 0xFFE`. -/
def fetch_opcode (s : Chip8) : Except EmuErr (Nat × Chip8) := do
  let first_byte ← readMem s.memory s.pc
  let second_byte ← readMem s.memory (s.pc + 1)
  let opcode := (first_byte <<< 8) ||| second_byte
  let pc' := s.pc + 2
  if pc' > 0xFFE then .error .pcOutOfRange
  else .ok (opcode, { s with pc := pc' })

def op_00E0 (s : Chip8) : Chip8 :=
  { s with gfx := fun _ => 0, draw_flag := true }

/-- `op_00EE`: `sp -= 1` underflows (aborts) when `sp = 0`; the subsequent
`stack[sp]` read aborts when the new `sp` is not below 16. -/
def op_00EE (s : Chip8) : Except EmuErr Chip8 :=
  if s.sp = 0 then .error .stackUnderflow
  else if s.sp - 1 < STACK_SIZE then
    .ok { s with sp := s.sp - 1, pc := s.stack (s.sp - 1) }
  else .error .indexOutOfBounds

def op_1nnn (s : Chip8) (nnn : Nat) : Chip8 :=
  { s with pc := nnn }

/-- `op_2nnn`: `stack[sp] = pc` aborts when `sp ≥ 16`. -/
def op_2nnn (s : Chip8) (nnn : Nat) : Except EmuErr Chip8 :=
  if s.sp < STACK_SIZE then
    .ok { s with stack := upd s.stack s.sp s.pc, sp := s.sp + 1, pc := nnn }
  else .error .stackOverflow

def op_3xkk (s : Chip8) (x : Nat) (kk : Nat) : Chip8 :=
  if s.registers x = kk then { s with pc := s.pc + 2 } else s

def op_4xkk (s : Chip8) (x : Nat) (kk : Nat) : Chip8 :=
  if s.registers x ≠ kk then { s with pc := s.pc + 2 } else s

def op_5xy0 (s : Chip8) (x y : Nat) : Chip8 :=
  if s.registers x = s.registers y then { s with pc := s.pc + 2 } else s

def op_6xkk (s : Chip8) (x : Nat) (kk : Nat) : Chip8 :=
  { s with registers := upd s.registers x kk }

def op_7xkk (s : Chip8) (x : Nat) (kk : Nat) : Chip8 :=
  { s with registers := upd s.registers x ((s.registers x + kk) % 256) }

def op_8xy0 (s : Chip8) (x y : Nat) : Chip8 :=
  { s with registers := upd s.registers x (s.registers y) }

def op_8xy1 (s : Chip8) (x y : Nat) : Chip8 :=
  { s with registers := upd s.registers x (s.registers x ||| s.registers y) }

def op_8xy2 (s : Chip8) (x y : Nat) : Chip8 :=
  { s with registers := upd s.registers x (s.registers x &&& s.registers y) }

def op_8xy3 (s : Chip8) (x y : Nat) : Chip8 :=
  { s with registers := upd s.registers x (s.registers x ^^^ s.registers y) }

/-- `op_8xy4`: the source writes the carry into `RF` first and only then
reads both operands again for the wrapping add, so the flag write is
observable when `x = 0xF` or `y = 0xF`. -/
def op_8xy4 (s : Chip8) (x y : Nat) : Chip8 :=
  let r1 := upd s.registers 0xF (if s.registers x + s.registers y > 255 then 1 else 0)
  { s with registers := upd r1 x ((r1 x + r1 y) % 256) }

/-- 8-bit wrapping subtraction (`u8::wrapping_sub`). -/
def wsub8 (a b : Nat) : Nat := (a % 256 + 256 - b % 256) % 256

def op_8xy5 (s : Chip8) (x y : Nat) : Chip8 :=
  let r1 := upd s.registers 0xF (if s.registers x < s.registers y then 0 else 1)
  { s with registers := upd r1 x (wsub8 (r1 x) (r1 y)) }

def op_8xy6 (s : Chip8) (x y : Nat) : Chip8 :=
  let r1 := upd s.registers 0xF (s.registers x &&& 1)
  { s with registers := upd r1 x (r1 x >>> 1) }

/-- `op_8xy7`: the function body is empty in the source — the handler
mutates nothing. -/
def op_8xy7 (s : Chip8) (x y : Nat) : Chip8 :=
  s

def op_8xyE (s : Chip8) (x y : Nat) : Chip8 :=
  let r1 := upd s.registers 0xF ((s.registers x >>> 7) &&& 1)
  { s with registers := upd r1 x ((r1 x <<< 1) % 256) }

def op_9xy0 (s : Chip8) (x y : Nat) : Chip8 :=
  if s.registers x ≠ s.registers y then { s with pc := s.pc + 2 } else s

def op_Annn (s : Chip8) (nnn : Nat) : Chip8 :=
  { s with index_register := nnn }

def op_Bnnn (s : Chip8) (nnn : Nat) : Chip8 :=
  { s with pc := nnn + s.registers 0 }

/-- `op_Cxkk` with the random byte passed explicitly (`rand::thread_rng`
in the source). -/
def op_Cxkk (s : Chip8) (x : Nat) (kk : Nat) (rando : Nat) : Chip8 :=
  { s with registers := upd s.registers x ((rando % 256) &&& kk) }

/-- One iteration of the inner bit loop of `op_Dxyn`, acting on the pair of
(display buffer, value destined for `registers[0xF]`): when bit `b` of the
row byte is set, the target's linear index is compared against the buffer
size and, if in range, the pixel is XOR-toggled after recording a collision. -/
def drawBitStep (xc row pixel : Nat) (acc : (Nat → Nat) × Nat) (b : Nat) :
    (Nat → Nat) × Nat :=
  if pixel &&& (0x80 >>> b) ≠ 0 then
    let off := (xc + b) + PIXEL_WIDTH * row
    if off < PIXEL_WIDTH * PIXEL_HEIGHT then
      (upd acc.1 off (acc.1 off ^^^ 1), if acc.1 off ^^^ 1 = 0 then 1 else acc.2)
    else acc
  else acc

/-- The 8 bits of one sprite row, drawn left to right. -/
def drawRow (xc row pixel : Nat) (g : Nat → Nat) (vf : Nat) : (Nat → Nat) × Nat :=
  (List.range 8).foldl (drawBitStep xc row pixel) (g, vf)

/-- The outer row loop of `op_Dxyn`: each row byte is read (bounds-checked)
from `memory[I + i]` and blitted. -/
def drawRowsAux (mem : Nat → Nat) (idx xc yc : Nat) :
    List Nat → (Nat → Nat) → Nat → Except EmuErr ((Nat → Nat) × Nat)
  | [], g, vf => .ok (g, vf)
  | i :: rest, g, vf => do
    let pixel ← readMem mem (idx + i)
    let acc := drawRow xc (yc + i) pixel g vf
    drawRowsAux mem idx xc yc rest acc.1 acc.2

/-- `op_Dxyn`: sets the redraw flag, clears `RF`, then reads the coordinates
(after the `RF` clear, as in the source) and blits `n` sprite rows. -/
def op_Dxyn (s : Chip8) (x y n : Nat) : Except EmuErr Chip8 :=
  let s1 : Chip8 := { s with draw_flag := true, registers := upd s.registers 0xF 0 }
  let xc := s1.registers x
  let yc := s1.registers y
  match drawRowsAux s1.memory s1.index_register xc yc (List.range n) s1.gfx
      (s1.registers 0xF) with
  | .ok (g', vf) => .ok { s1 with gfx := g', registers := upd s1.registers 0xF vf }
  | .error e => .error e

/-- `op_Ex9E`: `keys >> registers[x]` on a `u32`; the shift amount is reduced
mod 32 (release-mode semantics of an overflowing Rust shift). -/
def op_Ex9E (s : Chip8) (x : Nat) : Chip8 :=
  if (s.keys >>> (s.registers x % 32)) &&& 1 ≠ 0 then { s with pc := s.pc + 2 } else s

def op_ExA1 (s : Chip8) (x : Nat) : Chip8 :=
  if (s.keys >>> (s.registers x % 32)) &&& 1 = 0 then { s with pc := s.pc + 2 } else s

def op_Fx07 (s : Chip8) (x : Nat) : Chip8 :=
  { s with registers := upd s.registers x s.delay_timer }

/-- `op_Fx0A`: with no key pressed the program counter is rewound by 2;
otherwise the loop `for i in 0..0x10` stores every set key index into
`registers[x]` in turn, so the last (highest) set index survives. -/
def op_Fx0A (s : Chip8) (x : Nat) : Chip8 :=
  if s.keys = 0 then { s with pc := s.pc - 2 }
  else
    let r' := (List.range 0x10).foldl
      (fun r i => if (s.keys >>> i) &&& 1 = 1 then upd r x i else r) s.registers
    { s with registers := r' }

def op_Fx15 (s : Chip8) (x : Nat) : Chip8 :=
  { s with delay_timer := s.registers x }

def op_Fx18 (s : Chip8) (x : Nat) : Chip8 :=
  { s with sound_timer := s.registers x }

/-- `op_Fx1E`: `I += registers[x]` on the 16-bit index register, with no
masking to the 12-bit address space. -/
def op_Fx1E (s : Chip8) (x : Nat) : Chip8 :=
  { s with index_register := (s.index_register + s.registers x) % 65536 }

def op_Fx29 (s : Chip8) (x : Nat) : Chip8 :=
  { s with index_register := (s.registers x * 5) % 65536 }

/-- `op_Fx33`: BCD store at `I`, `I+1`, `I+2`, each write bounds-checked. -/
def op_Fx33 (s : Chip8) (x : Nat) : Except EmuErr Chip8 := do
  let value := s.registers x
  let m1 ← writeMem s.memory s.index_register (value / 100 % 10)
  let m2 ← writeMem m1 (s.index_register + 1) (value / 10 % 10)
  let m3 ← writeMem m2 (s.index_register + 2) (value % 10)
  .ok { s with memory := m3 }

/-- The ascending store loop of `op_Fx55`. -/
def storeRegsAux (regs : Nat → Nat) (base : Nat) :
    List Nat → (Nat → Nat) → Except EmuErr (Nat → Nat)
  | [], m => .ok m
  | i :: rest, m => do
    let m' ← writeMem m (base + i) (regs i)
    storeRegsAux regs base rest m'

def op_Fx55 (s : Chip8) (x : Nat) : Except EmuErr Chip8 := do
  let m' ← storeRegsAux s.registers s.index_register (List.range (x + 1)) s.memory
  .ok { s with memory := m',
               index_register := (s.index_register + x + 1) % 65536 }

/-- The ascending load loop of `op_Fx65`. -/
def loadRegsAux (mem : Nat → Nat) (base : Nat) :
    List Nat → (Nat → Nat) → Except EmuErr (Nat → Nat)
  | [], r => .ok r
  | i :: rest, r => do
    let v ← readMem mem (base + i)
    loadRegsAux mem base rest (upd r i v)

def op_Fx65 (s : Chip8) (x : Nat) : Except EmuErr Chip8 := do
  let r' ← loadRegsAux s.memory s.index_register (List.range (x + 1)) s.registers
  .ok { s with registers := r',
               index_register := (s.index_register + x + 1) % 65536 }

/-- `execute_opcode`: the two-level dispatch of the source, translated arm by
arm.  The Rust `match` uses *exclusive* range patterns (`0x1000..0x1FFF`
etc., under `feature(exclusive_range_pattern)`), so each family's topmost
word (`0x1FFF`, `0x2FFF`, …, `0xFFFF`) matches no arm and falls through to
the final `panic`.  The random byte drawn by `Cxkk` is passed in as `rando`. -/
def execute_opcode (rando : Nat) (s : Chip8) (opcode : Nat) : Except EmuErr Chip8 :=
  let x_reg := (opcode >>> 8) &&& 0xF
  let y_reg := (opcode >>> 4) &&& 0xF
  let nnn := opcode &&& 0xFFF
  let kk := opcode &&& 0xFF
  let n := opcode &&& 0xF
  if opcode = 0x00E0 then .ok (op_00E0 s)
  else if opcode = 0x00EE then op_00EE s
  else if 0x1000 ≤ opcode ∧ opcode < 0x1FFF then .ok (op_1nnn s nnn)
  else if 0x2000 ≤ opcode ∧ opcode < 0x2FFF then op_2nnn s nnn
  else if 0x3000 ≤ opcode ∧ opcode < 0x3FFF then .ok (op_3xkk s x_reg kk)
  else if 0x4000 ≤ opcode ∧ opcode < 0x4FFF then .ok (op_4xkk s x_reg kk)
  else if 0x5000 ≤ opcode ∧ opcode < 0x5FFF then
    (if n = 0x0 then .ok (op_5xy0 s x_reg y_reg)
     else .error (.invalidOpcode opcode))
  else if 0x6000 ≤ opcode ∧ opcode < 0x6FFF then .ok (op_6xkk s x_reg kk)
  else if 0x7000 ≤ opcode ∧ opcode < 0x7FFF then .ok (op_7xkk s x_reg kk)
  else if 0x8000 ≤ opcode ∧ opcode < 0x8FFF then
    (if n = 0x0 then .ok (op_8xy0 s x_reg y_reg)
     else if n = 0x1 then .ok (op_8xy1 s x_reg y_reg)
     else if n = 0x2 then .ok (op_8xy2 s x_reg y_reg)
     else if n = 0x3 then .ok (op_8xy3 s x_reg y_reg)
     else if n = 0x4 then .ok (op_8xy4 s x_reg y_reg)
     else if n = 0x5 then .ok (op_8xy5 s x_reg y_reg)
     else if n = 0x6 then .ok (op_8xy6 s x_reg y_reg)
     else if n = 0x7 then .ok (op_8xy7 s x_reg y_reg)
     else if n = 0xE then .ok (op_8xyE s x_reg y_reg)
     else .error (.invalidOpcode opcode))
  else if 0x9000 ≤ opcode ∧ opcode < 0x9FFF then
    (if n = 0x0 then .ok (op_9xy0 s x_reg y_reg)
     else .error (.invalidOpcode opcode))
  else if 0xA000 ≤ opcode ∧ opcode < 0xAFFF then .ok (op_Annn s nnn)
  else if 0xB000 ≤ opcode ∧ opcode < 0xBFFF then .ok (op_Bnnn s nnn)
  else if 0xC000 ≤ opcode ∧ opcode < 0xCFFF then .ok (op_Cxkk s x_reg kk rando)
  else if 0xD000 ≤ opcode ∧ opcode < 0xDFFF then op_Dxyn s x_reg y_reg n
  else if 0xE000 ≤ opcode ∧ opcode < 0xEFFF then
    (if kk = 0x9E then .ok (op_Ex9E s x_reg)
     else if kk = 0xA1 then .ok (op_ExA1 s x_reg)
     else .error (.invalidOpcode opcode))
  else if 0xF000 ≤ opcode ∧ opcode < 0xFFFF then
    (if kk = 0x07 then .ok (op_Fx07 s x_reg)
     else if kk = 0x0A then .ok (op_Fx0A s x_reg)
     else if kk = 0x15 then .ok (op_Fx15 s x_reg)
     else if kk = 0x18 then .ok (op_Fx18 s x_reg)
     else if kk = 0x1E then .ok (op_Fx1E s x_reg)
     else if kk = 0x29 then .ok (op_Fx29 s x_reg)
     else if kk = 0x33 then op_Fx33 s x_reg
     else if kk = 0x55 then op_Fx55 s x_reg
     else if kk = 0x65 then op_Fx65 s x_reg
     else .error (.invalidOpcode opcode))
  else .error (.invalidOpcode opcode)

/-- The timer block in the middle of `step`: when `sound_iterator % 16 = 0`
both timers are decremented if positive and the iterator is reset; the
iterator is then always bumped (`u32` wrapping add). -/
def tickTimers (s : Chip8) : Chip8 :=
  let s1 :=
    if s.sound_iterator % 16 = 0 then
      { s with
        sound_timer := if s.sound_timer > 0 then s.sound_timer - 1 else s.sound_timer,
        delay_timer := if s.delay_timer > 0 then s.delay_timer - 1 else s.delay_timer,
        sound_iterator := 0 }
    else s
  { s1 with sound_iterator := (s1.sound_iterator + 1) % 4294967296 }

/-- `step`: fetch, then the timer block, then execute. -/
def step (rando : Nat) (s : Chip8) : Except EmuErr Chip8 := do
  let (opcode, s1) ← fetch_opcode s
  execute_opcode rando (tickTimers s1) opcode

/-- `n` consecutive `step` calls (with a fixed random byte). -/
def stepN (rando : Nat) : Nat → Chip8 → Except EmuErr Chip8
  | 0, s => .ok s
  | n + 1, s => do stepN rando n (← step rando s)

/-- Projection helpers for evaluating concrete runs. -/
def okReg (e : Except EmuErr Chip8) (i : Nat) : Option Nat :=
  match e with | .ok s => some (s.registers i) | .error _ => none

def okGfx (e : Except EmuErr Chip8) (p : Nat) : Option Nat :=
  match e with | .ok s => some (s.gfx p) | .error _ => none

def okMem (e : Except EmuErr Chip8) (a : Nat) : Option Nat :=
  match e with | .ok s => some (s.memory a) | .error _ => none

def okPc (e : Except EmuErr Chip8) : Option Nat :=
  match e with | .ok s => some s.pc | .error _ => none

def okIdx (e : Except EmuErr Chip8) : Option Nat :=
  match e with | .ok s => some s.index_register | .error _ => none

def okDelay (e : Except EmuErr Chip8) : Option Nat :=
  match e with | .ok s => some s.delay_timer | .error _ => none

def errOf (e : Except EmuErr Chip8) : Option EmuErr :=
  match e with | .ok _ => none | .error err => some err

/-- Draw state for refuting the clipping claim: `R0 = 63`, `R1 = 0`,
`I = 0x200`, sprite byte `0x40` (single set bit at column offset 1, so its
target column is `63 + 1 = 64`, outside the 64-wide grid). -/
def clipState : Chip8 :=
  { Chip8.new with
    registers := upd Chip8.new.registers 0 63,
    memory := upd Chip8.new.memory 0x200 0x40,
    index_register := 0x200 }

/-- Draw state for the double-draw claim: pixel 0 already lit, sprite byte
`0x80` at `I = 0x200`, drawn at `(R0, R1) = (0, 0)`. -/
def litState : Chip8 :=
  { Chip8.new with
    gfx := upd Chip8.new.gfx 0 1,
    memory := upd Chip8.new.memory 0x200 0x80,
    index_register := 0x200 }

/-- State with `I = 0xFFF` and `R1 = 1`, from which `Fx1E` grows `I` to
`0x1000`. -/
def idxEdgeState : Chip8 :=
  { Chip8.new with
    index_register := 0xFFF,
    registers := upd Chip8.new.registers 1 1 }

/-- A machine whose memory is an endless sequence of `6000` opcodes
(`R0 = 0`), with `delay_timer = 10`, used to observe the timer cadence. -/
def timerState : Chip8 :=
  { Chip8.new with
    memory := fun a => if a % 2 = 0 then 0x60 else 0,
    delay_timer := 10 }

/-- C1: the source's `op_8xy7` handler has an empty body, so executing
opcode `8xy7` (here `0x8017` with `R0 = Rx`, `R1 = Ry`) leaves the machine
state completely unchanged, contrary to the specified
`Rx = Ry - Rx`, `RF = borrow` semantics. -/
theorem C1_8xy7_noop (rando : Nat) (s : Chip8) :
    execute_opcode rando s 0x8017 = .ok s :=
  rfl

/-- C7: because the source matches opcode families with *exclusive* range
patterns, the word `0x1FFF` (top nibble 1, `nnn = 0xFFF`) matches no arm and
is reported as an invalid opcode, while `0x1FFE` still jumps to `nnn`. -/
theorem C7_jump_fff_invalid (rando : Nat) (s : Chip8) :
    execute_opcode rando s 0x1FFF = .error (.invalidOpcode 0x1FFF) ∧
    execute_opcode rando s 0x1FFE = .ok { s with pc := 0xFFE } :=
  ⟨rfl, rfl⟩

/-- C2 counterexample: loading a 3585-byte ROM does not fail — there is no
length check in `load_rom` — and it does mutate memory (address `0x200`
changes from `0` to the ROM's first byte). -/
theorem load_rom_memory (s : Chip8) (bytes : List Nat) (a : Nat) :
    (load_rom s bytes).memory a =
      if 0x200 ≤ a ∧ a < 0x200 + min bytes.length 0xE00 then
        bytes.getD (a - 0x200) 0
      else s.memory a :=
  rfl

theorem C2_counterexample :
    (List.replicate 3585 (7:Nat)).length > 3584 ∧
    (load_rom Chip8.new (List.replicate 3585 7)).memory 0x200 = 7 ∧
    Chip8.new.memory 0x200 = 0 := by
  have hrep : List.replicate 3585 (7:Nat) = 7 :: List.replicate 3584 7 :=
    List.replicate_succ ..
  refine ⟨?_, ?_, by decide⟩
  · rw [List.length_replicate]
    decide
  · rw [load_rom_memory, List.length_replicate]
    rw [if_pos (by constructor <;> norm_num)]
    rw [hrep]
    rfl

/-- C3 counterexample: with `R0 = 63` the sprite bit at column offset 1
targets column 64, which the claim says must be discarded; the code instead
draws it at linear index 64, i.e. wrapped to row 1, column 0. -/
theorem C3_counterexample :
    clipState.registers 0 + 1 = 64 ∧
    clipState.gfx 64 = 0 ∧
    okGfx (op_Dxyn clipState 0 1 1) 64 = some 1 := by
  refine ⟨by decide, by decide, ?_⟩
  decide

/-- C5 counterexample: with keys 0 and 1 both pressed (`keys = 3`), `Fx0A`
stores key index 1 — the highest pressed key — into `Rx`, not the lowest
(0) as claimed. -/
theorem C5_counterexample :
    ((3:Nat) >>> 0) &&& 1 = 1 ∧
    ((3:Nat) >>> 1) &&& 1 = 1 ∧
    (op_Fx0A { Chip8.new with keys := 3 } 0).registers 0 = 1 ∧
    (op_Fx0A { Chip8.new with keys := 3 } 0).pc = 0x200 := by
  refine ⟨by decide, by decide, ?_, ?_⟩ <;> decide

/-- C6 counterexample: at `pc = 0xFFD ≤ 0xFFE` the claim says the fetch
succeeds, but the source checks the bound only after advancing `pc` by 2 and
therefore fails with `ProgramCounterOutOfRange`. -/
theorem C6_counterexample :
    (0xFFD : Nat) ≤ 0xFFE ∧
    fetch_opcode { Chip8.new with pc := 0xFFD } = .error .pcOutOfRange := by
  exact ⟨by decide, rfl⟩

/-- C4 counterexample: `Fx1E` applies no 12-bit mask, growing `I` from
`0xFFF` to `0x1000`; executing `Fx33` there attempts a memory access at
address `0x1000`, outside `0x000–0xFFF` (an out-of-bounds abort in the
source, not a masked or validated access). -/
theorem C4_counterexample :
    okIdx (execute_opcode 0 idxEdgeState 0xF11E) = some 0x1000 ∧
    errOf (execute_opcode 0 { idxEdgeState with index_register := 0x1000 } 0xF033)
      = some .indexOutOfBounds := by
  constructor <;> decide

/-- C8 counterexample: the timers decrement once per 16 executed steps —
a pure instruction-count cadence.  Starting from `timerState`, one step
already decrements `delay_timer` to 9, sixteen steps still give 9, and the
seventeenth decrements again to 8, regardless of any elapsed real time
(`step` receives no notion of time at all). -/
theorem C8_counterexample :
    okDelay (stepN 0 1 timerState) = some 9 ∧
    okDelay (stepN 0 16 timerState) = some 9 ∧
    okDelay (stepN 0 17 timerState) = some 8 := by
  refine ⟨by decide, ?_, ?_⟩ <;> decide

/-- C9 counterexample: drawing the 1-row sprite `0x80` twice at `(0, 0)`
over a buffer whose pixel 0 is already lit restores the buffer (pixel 0 is
`1` again) but leaves `RF = 0` after the second draw, because the pixel was
*off* after the first draw, so the second draw sees no collision — contrary
to the claim that the second draw always sets `RF = 1`. -/
theorem C9_counterexample :
    litState.gfx 0 = 1 ∧
    okReg ((op_Dxyn litState 0 1 1).bind (fun t => op_Dxyn t 0 1 1)) 0xF = some 0 ∧
    okGfx ((op_Dxyn litState 0 1 1).bind (fun t => op_Dxyn t 0 1 1)) 0 = some 1 := by
  refine ⟨by decide, ?_, ?_⟩ <;> decide

set_option maxHeartbeats 1600000 in
/-- C10: every opcode outside the `Cxkk` dispatch range executes identically
for any two values of the random byte, so execution from equal states is
deterministic; and `Cxkk` itself really does depend on the random byte
(witnessed by `0xC0FF` giving `R0 = 0` for byte 0 and `R0 = 1` for byte 1). -/
theorem C10_determinism :
    (∀ (opcode r1 r2 : Nat) (s : Chip8),
        ¬(0xC000 ≤ opcode ∧ opcode < 0xCFFF) →
        execute_opcode r1 s opcode = execute_opcode r2 s opcode) ∧
    okReg (execute_opcode 0 Chip8.new 0xC0FF) 0 = some 0 ∧
    okReg (execute_opcode 1 Chip8.new 0xC0FF) 0 = some 1 := by
  refine ⟨?_, by decide, by decide⟩
  intro opcode r1 r2 s h
  show execute_opcode r1 s opcode = execute_opcode r2 s opcode
  simp only [execute_opcode]
  rw [if_neg h, if_neg h]

/-- Witness for C10: the determinism theorem applied to the concrete opcode
`0x00E0` and random bytes 3 and 99. -/
theorem C10_witness :
    execute_opcode 3 Chip8.new 0x00E0 = execute_opcode 99 Chip8.new 0x00E0 :=
  C10_determinism.1 0x00E0 3 99 Chip8.new (by decide)

/-- C2 (amended): `load_rom` never fails and performs no length check; it
writes the first `min(length, 3584)` bytes of the ROM at `0x200` (silently
truncating longer inputs — in particular a ROM of length at most 3584 is
written exactly), and every other part of the machine state is untouched. -/
theorem C2_load_truncates (s : Chip8) (bytes : List Nat) (a : Nat) :
    ((0x200 ≤ a ∧ a < 0x200 + min bytes.length 0xE00) →
      (load_rom s bytes).memory a = bytes.getD (a - 0x200) 0) ∧
    (¬(0x200 ≤ a ∧ a < 0x200 + min bytes.length 0xE00) →
      (load_rom s bytes).memory a = s.memory a) ∧
    (load_rom s bytes).registers = s.registers ∧
    (load_rom s bytes).pc = s.pc ∧
    (load_rom s bytes).gfx = s.gfx ∧
    (load_rom s bytes).index_register = s.index_register := by
  refine ⟨fun h => ?_, fun h => ?_, rfl, rfl, rfl, rfl⟩
  · rw [load_rom_memory, if_pos h]
  · rw [load_rom_memory, if_neg h]

/-- Witness for C2's amended theorem: a 3-byte ROM loaded into a fresh
machine, observed at address `0x200` (written) and `0x100` (untouched). -/
theorem C2_witness :
    (load_rom Chip8.new [1, 2, 3]).memory 0x200 = [1, 2, 3].getD 0 0 ∧
    (load_rom Chip8.new [1, 2, 3]).memory 0x100 = Chip8.new.memory 0x100 :=
  ⟨(C2_load_truncates Chip8.new [1, 2, 3] 0x200).1 (by decide),
   (C2_load_truncates Chip8.new [1, 2, 3] 0x100).2.1 (by decide)⟩

/-- C6 (amended): the fetch bound is checked only after `pc` has been
advanced by 2, so fetch succeeds — returning the big-endian word formed from
`memory[pc]` and `memory[pc+1]` with `pc` advanced by 2 — exactly when the
starting `pc ≤ 0xFFC`, and any fetch starting at `pc ≥ 0xFFD` is an error
(`ProgramCounterOutOfRange` for `pc ≤ 0xFFE`; for larger `pc` the byte reads
themselves are out of bounds), the bytes having been read before the check. -/
theorem C6_fetch_boundary (s : Chip8) :
    (s.pc ≤ 0xFFC →
      fetch_opcode s =
        .ok ((s.memory s.pc <<< 8) ||| s.memory (s.pc + 1), { s with pc := s.pc + 2 })) ∧
    (0xFFC < s.pc → ∃ e, fetch_opcode s = .error e) := by
  constructor
  · intro hpc
    have h1 : s.pc < 0x1000 := by omega
    have h2 : s.pc + 1 < 0x1000 := by omega
    have h3 : ¬(s.pc + 2 > 0xFFE) := by omega
    simp only [fetch_opcode, readMem, if_pos h1, if_pos h2, if_neg h3]
    rfl
  · intro hpc
    by_cases h1 : s.pc < 0x1000
    · by_cases h2 : s.pc + 1 < 0x1000
      · refine ⟨.pcOutOfRange, ?_⟩
        have h3 : s.pc + 2 > 0xFFE := by omega
        simp only [fetch_opcode, readMem, if_pos h1, if_pos h2, if_pos h3]
        rfl
      · refine ⟨.indexOutOfBounds, ?_⟩
        simp only [fetch_opcode, readMem, if_pos h1, if_neg h2]
        rfl
    · refine ⟨.indexOutOfBounds, ?_⟩
      simp only [fetch_opcode, readMem, if_neg h1]
      rfl

/-- Witness for C6's amended theorem: both branches, at `pc = 0x200` (a
successful fetch on a fresh machine) and at `pc = 0xFFD` (the error side). -/
theorem C6_witness :
    fetch_opcode Chip8.new =
      .ok ((Chip8.new.memory 0x200 <<< 8) ||| Chip8.new.memory (0x200 + 1),
        { Chip8.new with pc := 0x200 + 2 }) ∧
    ∃ e, fetch_opcode { Chip8.new with pc := 0xFFD } = .error e :=
  ⟨(C6_fetch_boundary Chip8.new).1 (by decide),
   (C6_fetch_boundary { Chip8.new with pc := 0xFFD }).2 (by decide)⟩

/-- C8 (amended): the timer subsystem of `step` is purely instruction-count
driven — `step` takes no notion of elapsed time.  On each step, both timers
decrement (saturating at 0) exactly when the internal counter
`sound_iterator` is `≡ 0 (mod 16)` — i.e. once per 16 executed steps — and
stay unchanged otherwise; and `step` is exactly fetch, then this timer
block, then execute. -/
theorem C8_timer_cadence (s : Chip8) :
    (s.sound_iterator % 16 = 0 →
      (tickTimers s).delay_timer = s.delay_timer - 1 ∧
      (tickTimers s).sound_timer = s.sound_timer - 1 ∧
      (tickTimers s).sound_iterator = 1) ∧
    (s.sound_iterator % 16 ≠ 0 →
      (tickTimers s).delay_timer = s.delay_timer ∧
      (tickTimers s).sound_timer = s.sound_timer ∧
      (tickTimers s).sound_iterator = (s.sound_iterator + 1) % 4294967296) ∧
    (∀ rando, step rando s =
      (fetch_opcode s).bind fun pr => execute_opcode rando (tickTimers pr.2) pr.1) := by
  refine ⟨fun h => ⟨?_, ?_, ?_⟩, fun h => ⟨?_, ?_, ?_⟩, fun rando => ?_⟩
  · show (tickTimers s).delay_timer = s.delay_timer - 1
    simp only [tickTimers, if_pos h]
    split <;> omega
  · show (tickTimers s).sound_timer = s.sound_timer - 1
    simp only [tickTimers, if_pos h]
    split <;> omega
  · show (tickTimers s).sound_iterator = 1
    simp only [tickTimers, if_pos h]
  · show (tickTimers s).delay_timer = s.delay_timer
    simp only [tickTimers, if_neg h]
  · show (tickTimers s).sound_timer = s.sound_timer
    simp only [tickTimers, if_neg h]
  · show (tickTimers s).sound_iterator = (s.sound_iterator + 1) % 4294967296
    simp only [tickTimers, if_neg h]
  · show step rando s = _
    rw [step]
    rcases hf : fetch_opcode s with e | pr
    · rfl
    · rfl

/-- Witness for C8's amended theorem: the decrement branch on a fresh
machine with `delay_timer = 10` (counter at 0) and the no-decrement branch
with the counter at 1. -/
theorem C8_witness :
    (tickTimers { Chip8.new with delay_timer := 10 }).delay_timer =
      { Chip8.new with delay_timer := 10 }.delay_timer - 1 ∧
    (tickTimers { Chip8.new with delay_timer := 10, sound_iterator := 1 }).delay_timer =
      { Chip8.new with delay_timer := 10, sound_iterator := 1 }.delay_timer :=
  ⟨((C8_timer_cadence { Chip8.new with delay_timer := 10 }).1 (by decide)).1,
   ((C8_timer_cadence { Chip8.new with delay_timer := 10, sound_iterator := 1 }).2.1
      (by decide)).1⟩

/-- The last key index below `n` whose bit is set in `keys` (the survivor of
the source's overwrite loop in `op_Fx0A`). -/
def lastKey (keys : Nat) : Nat → Option Nat
  | 0 => none
  | n + 1 => if (keys >>> n) &&& 1 = 1 then some n else lastKey keys n

theorem fx0a_fold (keys x : Nat) :
    ∀ (n : Nat) (r : Nat → Nat) (p : Nat),
      ((List.range n).foldl
          (fun r i => if (keys >>> i) &&& 1 = 1 then upd r x i else r) r) p =
        if p = x then
          (match lastKey keys n with | some i => i | none => r x)
        else r p := by
  intro n
  induction n with
  | zero =>
    intro r p
    by_cases hp : p = x <;> simp [lastKey, hp]
  | succ n ih =>
    intro r p
    rw [List.range_succ, List.foldl_append]
    simp only [List.foldl_cons, List.foldl_nil]
    by_cases hb : (keys >>> n) &&& 1 = 1
    · rw [if_pos hb]
      by_cases hp : p = x
      · simp [upd, hp, lastKey, hb]
      · simp only [upd, if_neg hp]
        rw [ih r p, if_neg hp]
    · rw [if_neg hb]
      rw [ih r p]
      have hl : lastKey keys (n + 1) = lastKey keys n := by
        simp only [lastKey, if_neg hb]
      rw [hl]

theorem lastKey_spec (keys : Nat) :
    ∀ n i, lastKey keys n = some i →
      i < n ∧ (keys >>> i) &&& 1 = 1 ∧
        ∀ j, i < j → j < n → (keys >>> j) &&& 1 ≠ 1 := by
  intro n
  induction n with
  | zero => intro i h; simp [lastKey] at h
  | succ n ih =>
    intro i h
    by_cases hb : (keys >>> n) &&& 1 = 1
    · simp only [lastKey, if_pos hb, Option.some.injEq] at h
      subst h
      exact ⟨Nat.lt_succ_self n, hb, fun j h1 h2 => by omega⟩
    · simp only [lastKey, if_neg hb] at h
      obtain ⟨h1, h2, h3⟩ := ih i h
      refine ⟨by omega, h2, fun j hj1 hj2 => ?_⟩
      by_cases hjn : j = n
      · rw [hjn]; exact hb
      · exact h3 j hj1 (by omega)

theorem lastKey_isSome (keys : Nat) :
    ∀ n, (∃ i, i < n ∧ (keys >>> i) &&& 1 = 1) →
      ∃ i, lastKey keys n = some i := by
  intro n
  induction n with
  | zero => rintro ⟨i, hi, _⟩; omega
  | succ n ih =>
    rintro ⟨i, hi, hbit⟩
    by_cases hb : (keys >>> n) &&& 1 = 1
    · exact ⟨n, by simp [lastKey, hb]⟩
    · have hin : i < n := by
        rcases Nat.lt_succ_iff_lt_or_eq.mp hi with h | h
        · exact h
        · exact absurd (h ▸ hbit) hb
      obtain ⟨j, hj⟩ := ih ⟨i, hin, hbit⟩
      refine ⟨j, ?_⟩
      simp only [lastKey, if_neg hb]
      exact hj

/-- C5 (amended): with no key pressed, `Fx0A` rewinds `pc` by 2 and changes
nothing else; with `keys ≠ 0`, `pc` is not rewound, registers other than
`Rx` are unchanged, and when some key bit among `0x0–0xF` is set the value
stored into `Rx` is the *highest*-indexed pressed key (the source loop
overwrites `Rx` for every set bit in ascending order), not the lowest. -/
theorem C5_keywait (s : Chip8) (x : Nat) :
    (s.keys = 0 → op_Fx0A s x = { s with pc := s.pc - 2 }) ∧
    (s.keys ≠ 0 →
      (op_Fx0A s x).pc = s.pc ∧
      (∀ j, j ≠ x → (op_Fx0A s x).registers j = s.registers j) ∧
      ((∃ i, i < 16 ∧ (s.keys >>> i) &&& 1 = 1) →
        ∃ i, i < 16 ∧ (s.keys >>> i) &&& 1 = 1 ∧
          (op_Fx0A s x).registers x = i ∧
          ∀ j, i < j → j < 16 → (s.keys >>> j) &&& 1 ≠ 1)) := by
  constructor
  · intro h
    simp [op_Fx0A, h]
  · intro h
    refine ⟨by simp [op_Fx0A, h], fun j hj => ?_, fun hex => ?_⟩
    · simp only [op_Fx0A, if_neg h]
      rw [fx0a_fold s.keys x 16 s.registers j, if_neg hj]
    · obtain ⟨i, hi⟩ := lastKey_isSome s.keys 16 hex
      obtain ⟨h1, h2, h3⟩ := lastKey_spec s.keys 16 i hi
      refine ⟨i, h1, h2, ?_, h3⟩
      simp only [op_Fx0A, if_neg h]
      rw [fx0a_fold s.keys x 16 s.registers x, if_pos rfl, hi]

/-- Witness for C5's amended theorem: both branches — a fresh machine
(no keys, `pc` rewound) and a machine with keys 0 and 1 pressed, where the
stored key is the highest pressed index. -/
theorem C5_witness :
    op_Fx0A Chip8.new 0 = { Chip8.new with pc := Chip8.new.pc - 2 } ∧
    ∃ i, i < 16 ∧ (({ Chip8.new with keys := 3 } : Chip8).keys >>> i) &&& 1 = 1 ∧
      (op_Fx0A { Chip8.new with keys := 3 } 0).registers 0 = i ∧
      ∀ j, i < j → j < 16 →
        (({ Chip8.new with keys := 3 } : Chip8).keys >>> j) &&& 1 ≠ 1 :=
  ⟨(C5_keywait Chip8.new 0).1 (by decide),
   ((C5_keywait { Chip8.new with keys := 3 } 0).2 (by decide)).2.2
     ⟨0, by decide, by decide⟩⟩

theorem storeRegsAux_ok (regs : Nat → Nat) (base : Nat) :
    ∀ (l : List Nat) (m : Nat → Nat),
      (∀ i ∈ l, base + i < 0x1000) →
      ∃ m', storeRegsAux regs base l m = .ok m' ∧
        (∀ a, (∀ i ∈ l, a ≠ base + i) → m' a = m a) ∧
        (∀ i ∈ l, m' (base + i) = regs i) := by
  intro l
  induction l with
  | nil =>
    intro m _
    exact ⟨m, rfl, fun a _ => rfl, fun i hi => absurd hi (List.not_mem_nil i)⟩
  | cons i rest ih =>
    intro m hbound
    have hi : base + i < 0x1000 := hbound i (List.mem_cons_self i rest)
    obtain ⟨m', hok, hframe, hvals⟩ :=
      ih (upd m (base + i) (regs i)) (fun j hj => hbound j (List.mem_cons_of_mem i hj))
    refine ⟨m', ?_, ?_, ?_⟩
    · show storeRegsAux regs base (i :: rest) m = .ok m'
      simp only [storeRegsAux, writeMem, if_pos hi]
      exact hok
    · intro a ha
      rw [hframe a (fun j hj => ha j (List.mem_cons_of_mem i hj))]
      exact upd_other m (base + i) (regs i) a (ha i (List.mem_cons_self i rest))
    · intro j hj
      rcases List.mem_cons.mp hj with hji | hjr
      · subst hji
        by_cases hjrest : j ∈ rest
        · exact hvals j hjrest
        · rw [hframe (base + j) (fun k hk => by
            intro hc
            exact hjrest (by
              have : j = k := by omega
              rwa [this]))]
          exact upd_same m (base + j) (regs j)
      · exact hvals j hjr

theorem storeRegsAux_err (regs : Nat → Nat) (base : Nat) :
    ∀ (l : List Nat) (m : Nat → Nat),
      (∃ i ∈ l, 0x1000 ≤ base + i) →
      ∃ e, storeRegsAux regs base l m = .error e := by
  intro l
  induction l with
  | nil => rintro m ⟨i, hi, _⟩; exact absurd hi (List.not_mem_nil i)
  | cons i rest ih =>
    rintro m ⟨j, hj, hge⟩
    by_cases hi : base + i < 0x1000
    · rcases List.mem_cons.mp hj with hji | hjr
      · omega
      · obtain ⟨e, he⟩ := ih (upd m (base + i) (regs i)) ⟨j, hjr, hge⟩
        refine ⟨e, ?_⟩
        simp only [storeRegsAux, writeMem, if_pos hi]
        exact he
    · refine ⟨.indexOutOfBounds, ?_⟩
      simp only [storeRegsAux, writeMem, if_neg hi]
      rfl

set_option maxHeartbeats 800000 in
/-- C4 (amended): computed addresses are neither masked nor pre-validated.
`Fx1E` adds `Rx` to `I` with only 16-bit wrapping, so `I` can grow beyond
`0xFFF`; `Fx33` and `Fx55` then use `I`-based addresses directly: each
succeeds — with every touched address within `0x000–0xFFF` — exactly when
its topmost address (`I+2`, resp. `I+x`) is below `0x1000`, and otherwise
aborts with an out-of-bounds error instead of accessing memory outside that
range. -/
theorem C4_no_masking (s : Chip8) (x : Nat) :
    ((op_Fx1E s x).index_register = (s.index_register + s.registers x) % 65536) ∧
    (s.index_register + 2 < 0x1000 →
      ∃ s', op_Fx33 s x = .ok s' ∧
        s'.memory s.index_register = s.registers x / 100 % 10 ∧
        s'.memory (s.index_register + 1) = s.registers x / 10 % 10 ∧
        s'.memory (s.index_register + 2) = s.registers x % 10 ∧
        ∀ a, a ≠ s.index_register → a ≠ s.index_register + 1 →
          a ≠ s.index_register + 2 → s'.memory a = s.memory a) ∧
    (0x1000 ≤ s.index_register + 2 → ∃ e, op_Fx33 s x = .error e) ∧
    (s.index_register + x < 0x1000 →
      ∃ s', op_Fx55 s x = .ok s' ∧
        (∀ i, i ≤ x → s'.memory (s.index_register + i) = s.registers i) ∧
        (∀ a, (∀ i, i ≤ x → a ≠ s.index_register + i) → s'.memory a = s.memory a) ∧
        s'.index_register = (s.index_register + x + 1) % 65536) ∧
    (0x1000 ≤ s.index_register + x → ∃ e, op_Fx55 s x = .error e) := by
  refine ⟨rfl, fun h => ?_, fun h => ?_, fun h => ?_, fun h => ?_⟩
  · have h0 : s.index_register < 0x1000 := by omega
    have h1 : s.index_register + 1 < 0x1000 := by omega
    have h2 : s.index_register + 2 < 0x1000 := h
    refine ⟨{ s with memory := upd (upd (upd s.memory s.index_register (s.registers x / 100 % 10)) (s.index_register + 1) (s.registers x / 10 % 10)) (s.index_register + 2) (s.registers x % 10) }, ?_, ?_, ?_, ?_, ?_⟩
    · simp only [op_Fx33, writeMem, if_pos h0, if_pos h1, if_pos h2]
      rfl
    · show upd (upd (upd s.memory _ _) _ _) _ _ s.index_register = _
      rw [upd_other _ _ _ _ (by omega), upd_other _ _ _ _ (by omega), upd_same]
    · show upd (upd (upd s.memory _ _) _ _) _ _ (s.index_register + 1) = _
      rw [upd_other _ _ _ _ (by omega), upd_same]
    · show upd (upd (upd s.memory _ _) _ _) _ _ (s.index_register + 2) = _
      rw [upd_same]
    · intro a ha0 ha1 ha2
      show upd (upd (upd s.memory _ _) _ _) _ _ a = s.memory a
      rw [upd_other _ _ _ _ ha2, upd_other _ _ _ _ ha1, upd_other _ _ _ _ ha0]
  · by_cases h0 : s.index_register < 0x1000
    · by_cases h1 : s.index_register + 1 < 0x1000
      · refine ⟨.indexOutOfBounds, ?_⟩
        have h2 : ¬(s.index_register + 2 < 0x1000) := by omega
        simp only [op_Fx33, writeMem, if_pos h0, if_pos h1, if_neg h2]
        rfl
      · refine ⟨.indexOutOfBounds, ?_⟩
        simp only [op_Fx33, writeMem, if_pos h0, if_neg h1]
        rfl
    · refine ⟨.indexOutOfBounds, ?_⟩
      simp only [op_Fx33, writeMem, if_neg h0]
      rfl
  · obtain ⟨m', hok, hframe, hvals⟩ :=
      storeRegsAux_ok s.registers s.index_register (List.range (x + 1)) s.memory
        (fun i hi => by
          have : i < x + 1 := List.mem_range.mp hi
          omega)
    refine ⟨{ s with memory := m', index_register := (s.index_register + x + 1) % 65536 }, ?_, ?_, ?_, rfl⟩
    · simp only [op_Fx55, hok]
      rfl
    · intro i hi
      exact hvals i (List.mem_range.mpr (by omega))
    · intro a ha
      exact hframe a (fun i hi => ha i (by
        have : i < x + 1 := List.mem_range.mp hi
        omega))
  · obtain ⟨e, he⟩ :=
      storeRegsAux_err s.registers s.index_register (List.range (x + 1)) s.memory
        ⟨x, List.mem_range.mpr (by omega), h⟩
    refine ⟨e, ?_⟩
    simp only [op_Fx55, he]
    rfl

/-- Witness for C4's amended theorem: on a machine with `I = 0xFFF` and
`R1 = 1`, `Fx1E` yields `I = 0x1000` with no masking, and from `I = 0x1000`
the `Fx33` store fails with an error rather than accessing memory. -/
theorem C4_witness :
    (op_Fx1E idxEdgeState 1).index_register =
      (idxEdgeState.index_register + idxEdgeState.registers 1) % 65536 ∧
    (∃ e, op_Fx33 { idxEdgeState with index_register := 0x1000 } 0 = .error e) ∧
    (∃ s', op_Fx33 Chip8.new 0 = .ok s') :=
  ⟨(C4_no_masking idxEdgeState 1).1,
   (C4_no_masking { idxEdgeState with index_register := 0x1000 } 0).2.2.1 (by decide),
   ⟨((C4_no_masking Chip8.new 0).2.1 (by decide)).choose,
     ((C4_no_masking Chip8.new 0).2.1 (by decide)).choose_spec.1⟩⟩

theorem xor_one_cancel (a : Nat) : a ^^^ 1 ^^^ 1 = a := by
  rw [Nat.xor_assoc, Nat.xor_self, Nat.xor_zero]

theorem xor_one_eq_zero (a : Nat) : a ^^^ 1 = 0 ↔ a = 1 := by
  constructor
  · intro h
    have := congrArg (fun t => t ^^^ 1) h
    simpa [xor_one_cancel] using this
  · intro h
    rw [h]
    exact Nat.xor_self 1

/-- Bit `b` of the sprite row byte hits pixel `p`: the bit is set, the
target's linear index is `p`, and `p` is inside the buffer. -/
def hitB (xc row pixel b p : Nat) : Prop :=
  pixel &&& (0x80 >>> b) ≠ 0 ∧ (xc + b) + PIXEL_WIDTH * row = p ∧
    p < PIXEL_WIDTH * PIXEL_HEIGHT

/-- Bit `b` of the sprite row byte collides against buffer `g`: the bit is
set, in range, and the target pixel is currently lit. -/
def collB (g : Nat → Nat) (xc row pixel b : Nat) : Prop :=
  pixel &&& (0x80 >>> b) ≠ 0 ∧
    (xc + b) + PIXEL_WIDTH * row < PIXEL_WIDTH * PIXEL_HEIGHT ∧
    g ((xc + b) + PIXEL_WIDTH * row) = 1

instance (xc row pixel b p : Nat) : Decidable (hitB xc row pixel b p) := by
  unfold hitB
  infer_instance

instance (g : Nat → Nat) (xc row pixel b : Nat) : Decidable (collB g xc row pixel b) := by
  unfold collB
  infer_instance

theorem bitOff_inj (xc row b1 b2 : Nat)
    (h : (xc + b1) + PIXEL_WIDTH * row = (xc + b2) + PIXEL_WIDTH * row) :
    b1 = b2 := by
  omega

theorem drawRow_fold_spec (xc row pixel : Nat) :
    ∀ (bs : List Nat), bs.Nodup →
    ∀ (g : Nat → Nat) (vf : Nat),
      (∀ p, (bs.foldl (drawBitStep xc row pixel) (g, vf)).1 p =
        if ∃ b ∈ bs, hitB xc row pixel b p then g p ^^^ 1 else g p) ∧
      ((bs.foldl (drawBitStep xc row pixel) (g, vf)).2 =
        if ∃ b ∈ bs, collB g xc row pixel b then 1 else vf) := by
  intro bs
  induction bs with
  | nil =>
    intro _ g vf
    constructor
    · intro p
      simp
    · simp
  | cons b rest ih =>
    intro hnd g vf
    have hbrest : b ∉ rest := (List.nodup_cons.mp hnd).1
    have hndrest : rest.Nodup := (List.nodup_cons.mp hnd).2
    rw [List.foldl_cons]
    by_cases hset : pixel &&& (0x80 >>> b) ≠ 0
    · by_cases hin : (xc + b) + PIXEL_WIDTH * row < PIXEL_WIDTH * PIXEL_HEIGHT
      · -- the bit is set and in range: the pixel is toggled
        have hstep : drawBitStep xc row pixel (g, vf) b =
            (upd g ((xc + b) + PIXEL_WIDTH * row)
              (g ((xc + b) + PIXEL_WIDTH * row) ^^^ 1),
             if g ((xc + b) + PIXEL_WIDTH * row) ^^^ 1 = 0 then 1 else vf) := by
          simp only [drawBitStep, if_pos hset, if_pos hin]
        rw [hstep]
        obtain ⟨ih1, ih2⟩ := ih hndrest
          (upd g ((xc + b) + PIXEL_WIDTH * row)
            (g ((xc + b) + PIXEL_WIDTH * row) ^^^ 1))
          (if g ((xc + b) + PIXEL_WIDTH * row) ^^^ 1 = 0 then 1 else vf)
        have hg1 : ∀ b', b' ∈ rest →
            (upd g ((xc + b) + PIXEL_WIDTH * row)
              (g ((xc + b) + PIXEL_WIDTH * row) ^^^ 1))
              ((xc + b') + PIXEL_WIDTH * row) =
            g ((xc + b') + PIXEL_WIDTH * row) := by
          intro b' hb'
          refine upd_other _ _ _ _ (fun hc => ?_)
          exact hbrest ((bitOff_inj xc row b' b hc) ▸ hb')
        constructor
        · intro p
          rw [ih1 p]
          by_cases hp : p = (xc + b) + PIXEL_WIDTH * row
          · have hrf : ¬∃ b' ∈ rest, hitB xc row pixel b' p := by
              rintro ⟨b', hb', _, he, _⟩
              exact hbrest ((bitOff_inj xc row b' b (he.trans hp)) ▸ hb')
            rw [if_neg hrf]
            have hcf : ∃ b' ∈ b :: rest, hitB xc row pixel b' p :=
              ⟨b, List.mem_cons_self b rest, hset, hp.symm, hp ▸ hin⟩
            rw [if_pos hcf, hp, upd_same]
          · have hup : (upd g ((xc + b) + PIXEL_WIDTH * row)
                (g ((xc + b) + PIXEL_WIDTH * row) ^^^ 1)) p = g p :=
              upd_other _ _ _ _ hp
            rw [hup]
            have hiff : (∃ b' ∈ rest, hitB xc row pixel b' p) ↔
                (∃ b' ∈ b :: rest, hitB xc row pixel b' p) := by
              constructor
              · rintro ⟨b', hb', hc⟩
                exact ⟨b', List.mem_cons_of_mem b hb', hc⟩
              · rintro ⟨b', hb', hc⟩
                rcases List.mem_cons.mp hb' with hbb | hbr
                · exact absurd (hbb ▸ hc.2.1) (fun he => hp he.symm)
                · exact ⟨b', hbr, hc⟩
            exact if_congr hiff rfl rfl
        · rw [ih2]
          by_cases hcoll : g ((xc + b) + PIXEL_WIDTH * row) = 1
          · have hz : g ((xc + b) + PIXEL_WIDTH * row) ^^^ 1 = 0 :=
              (xor_one_eq_zero _).mpr hcoll
            rw [if_pos hz]
            have hrhs : ∃ b' ∈ b :: rest, collB g xc row pixel b' :=
              ⟨b, List.mem_cons_self b rest, hset, hin, hcoll⟩
            rw [if_pos hrhs, ite_self]
          · have hz : ¬(g ((xc + b) + PIXEL_WIDTH * row) ^^^ 1 = 0) :=
              fun hc => hcoll ((xor_one_eq_zero _).mp hc)
            rw [if_neg hz]
            have hiff : (∃ b' ∈ rest, collB
                (upd g ((xc + b) + PIXEL_WIDTH * row)
                  (g ((xc + b) + PIXEL_WIDTH * row) ^^^ 1)) xc row pixel b') ↔
                (∃ b' ∈ b :: rest, collB g xc row pixel b') := by
              constructor
              · rintro ⟨b', hb', hs, hlt, hv⟩
                exact ⟨b', List.mem_cons_of_mem b hb', hs, hlt, (hg1 b' hb') ▸ hv⟩
              · rintro ⟨b', hb', hs, hlt, hv⟩
                rcases List.mem_cons.mp hb' with hbb | hbr
                · exact absurd (hbb ▸ hv) hcoll
                · exact ⟨b', hbr, hs, hlt, (hg1 b' hbr).symm ▸ hv⟩
            exact if_congr hiff rfl rfl
      · -- set bit out of range: no effect
        have hstep : drawBitStep xc row pixel (g, vf) b = (g, vf) := by
          simp only [drawBitStep, if_pos hset, if_neg hin]
        rw [hstep]
        obtain ⟨ih1, ih2⟩ := ih hndrest g vf
        constructor
        · intro p
          rw [ih1 p]
          have hiff : (∃ b' ∈ rest, hitB xc row pixel b' p) ↔
              (∃ b' ∈ b :: rest, hitB xc row pixel b' p) := by
            constructor
            · rintro ⟨b', hb', hc⟩
              exact ⟨b', List.mem_cons_of_mem b hb', hc⟩
            · rintro ⟨b', hb', hc⟩
              rcases List.mem_cons.mp hb' with hbb | hbr
              · exact absurd (hbb ▸ hc.2.1 ▸ hc.2.2) hin
              · exact ⟨b', hbr, hc⟩
          exact if_congr hiff rfl rfl
        · rw [ih2]
          have hiff : (∃ b' ∈ rest, collB g xc row pixel b') ↔
              (∃ b' ∈ b :: rest, collB g xc row pixel b') := by
            constructor
            · rintro ⟨b', hb', hc⟩
              exact ⟨b', List.mem_cons_of_mem b hb', hc⟩
            · rintro ⟨b', hb', hc⟩
              rcases List.mem_cons.mp hb' with hbb | hbr
              · exact absurd (hbb ▸ hc.2.1) hin
              · exact ⟨b', hbr, hc⟩
          exact if_congr hiff rfl rfl
    · -- bit not set: no effect
      have hstep : drawBitStep xc row pixel (g, vf) b = (g, vf) := by
        simp only [drawBitStep, if_neg hset]
      rw [hstep]
      obtain ⟨ih1, ih2⟩ := ih hndrest g vf
      constructor
      · intro p
        rw [ih1 p]
        have hiff : (∃ b' ∈ rest, hitB xc row pixel b' p) ↔
            (∃ b' ∈ b :: rest, hitB xc row pixel b' p) := by
          constructor
          · rintro ⟨b', hb', hc⟩
            exact ⟨b', List.mem_cons_of_mem b hb', hc⟩
          · rintro ⟨b', hb', hc⟩
            rcases List.mem_cons.mp hb' with hbb | hbr
            · exact absurd (hbb ▸ hc.1) hset
            · exact ⟨b', hbr, hc⟩
        exact if_congr hiff rfl rfl
      · rw [ih2]
        have hiff : (∃ b' ∈ rest, collB g xc row pixel b') ↔
            (∃ b' ∈ b :: rest, collB g xc row pixel b') := by
          constructor
          · rintro ⟨b', hb', hc⟩
            exact ⟨b', List.mem_cons_of_mem b hb', hc⟩
          · rintro ⟨b', hb', hc⟩
            rcases List.mem_cons.mp hb' with hbb | hbr
            · exact absurd (hbb ▸ hc.1) hset
            · exact ⟨b', hbr, hc⟩
        exact if_congr hiff rfl rfl

theorem hit_inj (xc yc i i' b b' pix pix' p : Nat)
    (hb : b < 8) (hb' : b' < 8)
    (h1 : hitB xc (yc + i) pix b p) (h2 : hitB xc (yc + i') pix' b' p) :
    i = i' := by
  obtain ⟨_, he1, _⟩ := h1
  obtain ⟨_, he2, _⟩ := h2
  simp only [PIXEL_WIDTH] at he1 he2
  omega

theorem drawRow_spec (xc row pixel : Nat) (g : Nat → Nat) (vf : Nat) :
    (∀ p, (drawRow xc row pixel g vf).1 p =
      if ∃ b ∈ List.range 8, hitB xc row pixel b p then g p ^^^ 1 else g p) ∧
    ((drawRow xc row pixel g vf).2 =
      if ∃ b ∈ List.range 8, collB g xc row pixel b then 1 else vf) :=
  drawRow_fold_spec xc row pixel (List.range 8) (List.nodup_range 8) g vf

theorem drawRowsAux_spec (mem : Nat → Nat) (idx xc yc : Nat) :
    ∀ (rows : List Nat), rows.Nodup →
      (∀ i ∈ rows, idx + i < 0x1000) →
      ∀ (g : Nat → Nat) (vf : Nat),
        ∃ g' vf', drawRowsAux mem idx xc yc rows g vf = .ok (g', vf') ∧
          (∀ p, g' p =
            if ∃ i ∈ rows, ∃ b ∈ List.range 8, hitB xc (yc + i) (mem (idx + i)) b p
            then g p ^^^ 1 else g p) ∧
          (vf' =
            if ∃ i ∈ rows, ∃ b ∈ List.range 8, collB g xc (yc + i) (mem (idx + i)) b
            then 1 else vf) := by
  intro rows
  induction rows with
  | nil =>
    intro _ _ g vf
    refine ⟨g, vf, rfl, fun p => ?_, ?_⟩ <;> simp
  | cons i rest ih =>
    intro hnd hbound g vf
    have hirest : i ∉ rest := (List.nodup_cons.mp hnd).1
    have hndrest : rest.Nodup := (List.nodup_cons.mp hnd).2
    have hii : idx + i < 0x1000 := hbound i (List.mem_cons_self i rest)
    obtain ⟨row1, row2⟩ := drawRow_spec xc (yc + i) (mem (idx + i)) g vf
    obtain ⟨g', vf', hok, hg, hvf⟩ :=
      ih hndrest (fun j hj => hbound j (List.mem_cons_of_mem i hj))
        (drawRow xc (yc + i) (mem (idx + i)) g vf).1
        (drawRow xc (yc + i) (mem (idx + i)) g vf).2
    refine ⟨g', vf', ?_, ?_, ?_⟩
    · show drawRowsAux mem idx xc yc (i :: rest) g vf = .ok (g', vf')
      simp only [drawRowsAux, readMem, if_pos hii]
      exact hok
    · intro p
      rw [hg p]
      by_cases hrow : ∃ b ∈ List.range 8, hitB xc (yc + i) (mem (idx + i)) b p
      · have hrestf : ¬∃ i' ∈ rest, ∃ b ∈ List.range 8,
            hitB xc (yc + i') (mem (idx + i')) b p := by
          rintro ⟨i', hi', b', hb', hhit'⟩
          obtain ⟨b, hb, hhit⟩ := hrow
          have heq : i = i' :=
            hit_inj xc yc i i' b b' _ _ p
              (List.mem_range.mp hb) (List.mem_range.mp hb') hhit hhit'
          exact hirest (heq ▸ hi')
        rw [if_neg hrestf]
        show (drawRow xc (yc + i) (mem (idx + i)) g vf).1 p = _
        rw [row1 p, if_pos hrow]
        have htot : ∃ i' ∈ i :: rest, ∃ b ∈ List.range 8,
            hitB xc (yc + i') (mem (idx + i')) b p :=
          ⟨i, List.mem_cons_self i rest, hrow⟩
        rw [if_pos htot]
      · have hstep : (drawRow xc (yc + i) (mem (idx + i)) g vf).1 p = g p := by
          rw [row1 p, if_neg hrow]
        have hiff : (∃ i' ∈ rest, ∃ b ∈ List.range 8,
              hitB xc (yc + i') (mem (idx + i')) b p) ↔
            (∃ i' ∈ i :: rest, ∃ b ∈ List.range 8,
              hitB xc (yc + i') (mem (idx + i')) b p) := by
          constructor
          · rintro ⟨i', hi', hr⟩
            exact ⟨i', List.mem_cons_of_mem i hi', hr⟩
          · rintro ⟨i', hi', hr⟩
            rcases List.mem_cons.mp hi' with hii' | hii'
            · exact absurd (hii' ▸ hr) hrow
            · exact ⟨i', hii', hr⟩
        rw [hstep]
        exact if_congr hiff rfl rfl
    · rw [hvf]
      have hg1coll : ∀ i', i' ∈ rest → ∀ b', b' < 8 →
          (collB (drawRow xc (yc + i) (mem (idx + i)) g vf).1
              xc (yc + i') (mem (idx + i')) b' ↔
            collB g xc (yc + i') (mem (idx + i')) b') := by
        intro i' hi' b' hb'
        have hpoint : (drawRow xc (yc + i) (mem (idx + i)) g vf).1
            ((xc + b') + PIXEL_WIDTH * (yc + i')) =
            g ((xc + b') + PIXEL_WIDTH * (yc + i')) := by
          rw [row1 _]
          apply if_neg
          rintro ⟨b, hb, _, he, _⟩
          have hblt : b < 8 := List.mem_range.mp hb
          have heq : i = i' := by
            simp only [PIXEL_WIDTH] at he
            omega
          exact hirest (heq ▸ hi')
        unfold collB
        rw [hpoint]
      by_cases hcoll : ∃ b ∈ List.range 8, collB g xc (yc + i) (mem (idx + i)) b
      · have hone : (drawRow xc (yc + i) (mem (idx + i)) g vf).2 = 1 := by
          rw [row2, if_pos hcoll]
        rw [hone]
        have htot : ∃ i' ∈ i :: rest, ∃ b ∈ List.range 8,
            collB g xc (yc + i') (mem (idx + i')) b :=
          ⟨i, List.mem_cons_self i rest, hcoll⟩
        rw [if_pos htot, ite_self]
      · have hsame : (drawRow xc (yc + i) (mem (idx + i)) g vf).2 = vf := by
          rw [row2, if_neg hcoll]
        rw [hsame]
        have hiff : (∃ i' ∈ rest, ∃ b ∈ List.range 8,
              collB (drawRow xc (yc + i) (mem (idx + i)) g vf).1
                xc (yc + i') (mem (idx + i')) b) ↔
            (∃ i' ∈ i :: rest, ∃ b ∈ List.range 8,
              collB g xc (yc + i') (mem (idx + i')) b) := by
          constructor
          · rintro ⟨i', hi', b', hb', hc⟩
            exact ⟨i', List.mem_cons_of_mem i hi',
              b', hb', (hg1coll i' hi' b' (List.mem_range.mp hb')).mp hc⟩
          · rintro ⟨i', hi', b', hb', hc⟩
            rcases List.mem_cons.mp hi' with hii' | hii'
            · exact absurd ⟨b', hb', hii' ▸ hc⟩ hcoll
            · exact ⟨i', hii', b', hb',
                (hg1coll i' hii' b' (List.mem_range.mp hb')).mpr hc⟩
        exact if_congr hiff rfl rfl

/-- Pixel `p` is targeted by some set, in-range sprite bit of the `Dxyn`
draw performed from state `s` (coordinates are read after the `RF` clear,
as in the source). -/
def spriteHit (s : Chip8) (x y n p : Nat) : Prop :=
  ∃ i ∈ List.range n, ∃ b ∈ List.range 8,
    hitB (upd s.registers 0xF 0 x) (upd s.registers 0xF 0 y + i)
      (s.memory (s.index_register + i)) b p

/-- Some set, in-range sprite bit of the `Dxyn` draw from state `s` targets
an already-lit pixel. -/
def spriteCollides (s : Chip8) (x y n : Nat) : Prop :=
  ∃ i ∈ List.range n, ∃ b ∈ List.range 8,
    collB s.gfx (upd s.registers 0xF 0 x) (upd s.registers 0xF 0 y + i)
      (s.memory (s.index_register + i)) b

instance (s : Chip8) (x y n p : Nat) : Decidable (spriteHit s x y n p) := by
  unfold spriteHit
  infer_instance

instance (s : Chip8) (x y n : Nat) : Decidable (spriteCollides s x y n) := by
  unfold spriteCollides
  infer_instance

theorem op_Dxyn_spec (s : Chip8) (x y n : Nat)
    (hmem : ∀ i, i < n → s.index_register + i < 0x1000) :
    ∃ s', op_Dxyn s x y n = .ok s' ∧
      (∀ p, s'.gfx p = if spriteHit s x y n p then s.gfx p ^^^ 1 else s.gfx p) ∧
      s'.registers = upd s.registers 0xF (if spriteCollides s x y n then 1 else 0) ∧
      s'.draw_flag = true ∧ s'.memory = s.memory ∧ s'.pc = s.pc ∧
      s'.index_register = s.index_register ∧ s'.keys = s.keys ∧
      s'.delay_timer = s.delay_timer ∧ s'.sound_timer = s.sound_timer ∧
      s'.sp = s.sp ∧ s'.stack = s.stack ∧ s'.sound_iterator = s.sound_iterator := by
  obtain ⟨g', vf', hok, hg, hvf⟩ :=
    drawRowsAux_spec s.memory s.index_register
      (upd s.registers 0xF 0 x) (upd s.registers 0xF 0 y) (List.range n)
      (List.nodup_range n) (fun i hi => hmem i (List.mem_range.mp hi))
      s.gfx (upd s.registers 0xF 0 0xF)
  rw [upd_same] at hvf
  refine ⟨{ s with draw_flag := true, gfx := g', registers := upd (upd s.registers 0xF 0) 0xF vf' }, ?_, ?_, ?_, rfl, rfl, rfl, rfl, rfl, rfl, rfl, rfl, rfl, rfl⟩
  · show op_Dxyn s x y n = _
    simp only [op_Dxyn]
    rw [hok]
  · intro p
    show g' p = _
    rw [hg p]
    unfold spriteHit
    exact if_congr Iff.rfl rfl rfl
  · show upd (upd s.registers 0xF 0) 0xF vf' = _
    rw [upd_upd_same, hvf]
    unfold spriteCollides
    exact congrArg (upd s.registers 0xF) (if_congr Iff.rfl rfl rfl)

/-- C3 (amended): a `Dxyn` draw changes the display buffer only at pixels
whose *linear* index `(Rx + b) + 64 * (Ry + i)` comes from a set sprite bit
and is below `2048`, where it XOR-toggles the pixel; set bits whose linear
index is at least `2048` are discarded.  There is no per-column clipping: a
bit whose target column is 64 or more but whose linear index is still below
`2048` is drawn at that wrapped position (see the counterexample). -/
theorem C3_dxyn_clipping (s : Chip8) (x y n : Nat)
    (hmem : ∀ i, i < n → s.index_register + i < 0x1000) :
    ∃ s', op_Dxyn s x y n = .ok s' ∧
      (∀ p, ¬spriteHit s x y n p → s'.gfx p = s.gfx p) ∧
      (∀ p, spriteHit s x y n p → s'.gfx p = s.gfx p ^^^ 1) := by
  obtain ⟨s', hok, hg, _⟩ := op_Dxyn_spec s x y n hmem
  refine ⟨s', hok, fun p hp => ?_, fun p hp => ?_⟩
  · rw [hg p, if_neg hp]
  · rw [hg p, if_pos hp]

/-- Witness for C3's amended theorem, at the concrete clipping state. -/
theorem C3_witness :
    ∃ s', op_Dxyn clipState 0 1 1 = .ok s' ∧
      (∀ p, ¬spriteHit clipState 0 1 1 p → s'.gfx p = clipState.gfx p) ∧
      (∀ p, spriteHit clipState 0 1 1 p → s'.gfx p = clipState.gfx p ^^^ 1) :=
  C3_dxyn_clipping clipState 0 1 1 (by decide)

/-- A fresh machine with the one-row sprite `0x80` at `I = 0x200`, drawn at
`(0, 0)` over an all-dark buffer. -/
def unlitState : Chip8 :=
  { Chip8.new with
    memory := upd Chip8.new.memory 0x200 0x80,
    index_register := 0x200 }

/-- C9 (amended): drawing the same 1-row sprite twice at the same
coordinates (coordinate registers distinct from `RF`, which the draw
overwrites) restores the display buffer exactly; and the second draw sets
`RF = 1` provided at least one set, in-range sprite bit targets a pixel
that was *unlit* before the first draw (the first draw turns it on, the
second collides with it).  Without that proviso `RF` can be `0`, as the
counterexample shows. -/
theorem C9_double_draw (s : Chip8) (x y : Nat)
    (hx : x ≠ 0xF) (hy : y ≠ 0xF)
    (hI : s.index_register < 0x1000)
    (hbit : ∃ b, b < 8 ∧
      s.memory s.index_register &&& (0x80 >>> b) ≠ 0 ∧
      (s.registers x + b) + PIXEL_WIDTH * s.registers y < PIXEL_WIDTH * PIXEL_HEIGHT ∧
      s.gfx ((s.registers x + b) + PIXEL_WIDTH * s.registers y) = 0) :
    ∃ s1 s2, op_Dxyn s x y 1 = .ok s1 ∧ op_Dxyn s1 x y 1 = .ok s2 ∧
      s2.gfx = s.gfx ∧ s2.registers 0xF = 1 := by
  have hx0 : upd s.registers 0xF 0 x = s.registers x := upd_other _ _ _ _ hx
  have hy0 : upd s.registers 0xF 0 y = s.registers y := upd_other _ _ _ _ hy
  obtain ⟨b0, hb0, hset, hlt, hzero⟩ := hbit
  have hmemok : ∀ i, i < 1 → s.index_register + i < 0x1000 := by
    intro i hi
    have hi0 : i = 0 := by omega
    subst hi0
    simpa using hI
  obtain ⟨s1, hok1, hg1, hreg1, _hdf1, hmm1, _hpc1, hidx1, _⟩ :=
    op_Dxyn_spec s x y 1 hmemok
  have hs1x : s1.registers x = s.registers x := by
    rw [hreg1]
    exact upd_other _ _ _ _ hx
  have hs1y : s1.registers y = s.registers y := by
    rw [hreg1]
    exact upd_other _ _ _ _ hy
  have hx1 : upd s1.registers 0xF 0 x = s.registers x := by
    rw [upd_other _ _ _ _ hx, hs1x]
  have hy1 : upd s1.registers 0xF 0 y = s.registers y := by
    rw [upd_other _ _ _ _ hy, hs1y]
  have hmemok2 : ∀ i, i < 1 → s1.index_register + i < 0x1000 := by
    intro i hi
    rw [hidx1]
    exact hmemok i hi
  obtain ⟨s2, hok2, hg2, hreg2, _⟩ := op_Dxyn_spec s1 x y 1 hmemok2
  have hiff : ∀ p, spriteHit s1 x y 1 p ↔ spriteHit s x y 1 p := by
    intro p
    unfold spriteHit
    have h1 : upd s1.registers 0xF 0 x = upd s.registers 0xF 0 x := by
      rw [hx1, hx0]
    have h2 : upd s1.registers 0xF 0 y = upd s.registers 0xF 0 y := by
      rw [hy1, hy0]
    rw [hmm1, hidx1]
    simp only [h1, h2]
  have hgfx : s2.gfx = s.gfx := by
    funext p
    by_cases hp : spriteHit s x y 1 p
    · rw [hg2 p, if_pos ((hiff p).mpr hp), hg1 p, if_pos hp, xor_one_cancel]
    · rw [hg2 p, if_neg (fun hc => hp ((hiff p).mp hc)), hg1 p, if_neg hp]
  have hhit0 : spriteHit s x y 1 ((s.registers x + b0) + PIXEL_WIDTH * s.registers y) := by
    refine ⟨0, List.mem_range.mpr (by omega), b0, List.mem_range.mpr hb0, ?_, ?_, ?_⟩
    · rw [Nat.add_zero]
      exact hset
    · rw [Nat.add_zero, hx0, hy0]
    · exact hlt
  have hcoll2 : spriteCollides s1 x y 1 := by
    refine ⟨0, List.mem_range.mpr (by omega), b0, List.mem_range.mpr hb0, ?_, ?_, ?_⟩
    · rw [hmm1, hidx1, Nat.add_zero]
      exact hset
    · rw [Nat.add_zero, hx1, hy1]
      exact hlt
    · rw [Nat.add_zero, hx1, hy1, hg1 _, if_pos hhit0, hzero]
      exact Nat.zero_xor 1
  have hrf : s2.registers 0xF = 1 := by
    rw [hreg2, upd_same, if_pos hcoll2]
  exact ⟨s1, s2, hok1, hok2, hgfx, hrf⟩

/-- Witness for C9's amended theorem: two draws of sprite `0x80` at `(0, 0)`
over an all-dark buffer. -/
theorem C9_witness :
    ∃ s1 s2, op_Dxyn unlitState 0 1 1 = .ok s1 ∧ op_Dxyn s1 0 1 1 = .ok s2 ∧
      s2.gfx = unlitState.gfx ∧ s2.registers 0xF = 1 :=
  C9_double_draw unlitState 0 1 (by decide) (by decide) (by decide)
    ⟨0, by decide, by decide, by decide, by decide⟩

end Chip8Emu
